import Mathlib

/-!
Shallow embedding of `profile_import.py` (`profile_detailed`): a linear run of
seven import probes, a stable descending sort of the collected measurements,
a percentage summary table, a slowest-module warning with a substring advisory
table, and a fixed tips block.

Durations are modelled as rationals (the Python floats carry wall-clock
differences; no claim depends on float rounding).  Each `print` call is
modelled as one `Line` event carrying the semantically relevant payload.
The host import machinery is modelled as an environment mapping module names
to outcomes: success with a duration, an `ImportError` with a message, or any
other exception.
-/

/-- Outcome of attempting to load one module, as seen at a probe boundary:
success (with the elapsed duration), an `ImportError` (the only exception the
guarded probes catch), or any other exception. -/
inductive ProbeOutcome where
  | ok (duration : ℚ)
  | importError (msg : String)
  | otherError
deriving DecidableEq, Repr

/-- How a probe guards the import statement in the source: no `try` at all
(probe 1, numpy, lines 24-29), `except ImportError: print("not installed")`
(probes 2-5), or `except ImportError as e: print(f"error: {e}")`
(probes 6-7). -/
inductive Guard where
  | unguarded
  | optional
  | required
deriving DecidableEq, Repr

/-- One probe: the module name passed to `import`, the label used in the
printed output and in the `results` list, and its guard shape. -/
structure Probe where
  module : String
  label : String
  guard : Guard
deriving DecidableEq, Repr

/-- The fixed ordered probe list of `profile_detailed` (source lines 23-95). -/
def probes : List Probe :=
  [⟨"numpy", "numpy", Guard.unguarded⟩,
   ⟨"ipywidgets", "ipywidgets", Guard.optional⟩,
   ⟨"pandas", "pandas", Guard.optional⟩,
   ⟨"geopandas", "geopandas", Guard.optional⟩,
   ⟨"rasterio", "rasterio", Guard.optional⟩,
   ⟨"leafmap", "leafmap (base)", Guard.required⟩,
   ⟨"leafmap.maplibregl", "leafmap.maplibregl", Guard.required⟩]

/-- One printed line, abstracted to its semantic payload.  `probeOk`,
`probeNotInstalled` and `probeError` are the three possible completions of an
`Importing X...` line; `probeError` carries the underlying exception text that
the source interpolates via `f"error: {e}"`. -/
inductive Line where
  | banner
  | sep
  | blank
  | title
  | probeOk (label : String) (duration : ℚ)
  | probeNotInstalled (label : String)
  | probeError (label : String) (msg : String)
  | summaryTitle
  | summaryRow (label : String) (duration : ℚ) (pctVal : ℚ) (barLen : ℕ)
  | totalRow (totalVal : ℚ)
  | recTitle
  | warning (label : String) (duration : ℚ)
  | advisory (text : String)
  | tipsTitle
  | tip (text : String)
deriving DecidableEq, Repr

/-- Run state: the `results` list of `(name, duration)` pairs, the output
emitted so far, and whether an uncaught exception has escaped (after which
nothing further in `profile_detailed` executes). -/
structure RunState where
  results : List (String × ℚ)
  out : List Line
  crashed : Bool
deriving DecidableEq, Repr

/-- One probe (source lines 23-95): on success append `(label, duration)` to
`results` and print the duration; an `ImportError` is caught only when the
probe is guarded (printing `not installed` or `error: {e}`); an `ImportError`
at the unguarded probe, or any non-`ImportError` exception anywhere, escapes
and aborts the rest of the function. -/
def step (env : String → ProbeOutcome) (st : RunState) (p : Probe) : RunState :=
  if st.crashed then st
  else
    match env p.module, p.guard with
    | ProbeOutcome.ok d, _ =>
        ⟨st.results ++ [(p.label, d)], st.out ++ [Line.probeOk p.label d], false⟩
    | ProbeOutcome.importError _, Guard.unguarded => ⟨st.results, st.out, true⟩
    | ProbeOutcome.importError _, Guard.optional =>
        ⟨st.results, st.out ++ [Line.probeNotInstalled p.label], false⟩
    | ProbeOutcome.importError msg, Guard.required =>
        ⟨st.results, st.out ++ [Line.probeError p.label msg], false⟩
    | ProbeOutcome.otherError, _ => ⟨st.results, st.out, true⟩

/-- The banner printed before the probes (source lines 16-19). -/
def headerOut : List Line := [Line.banner, Line.title, Line.banner, Line.blank]

/-- Run the probe phase over a list of probes. -/
def runSteps (env : String → ProbeOutcome) (ps : List Probe) : RunState :=
  ps.foldl (step env) ⟨[], headerOut, false⟩

/-- The sort relation of `results.sort(key=lambda x: x[1], reverse=True)`:
`a` may precede `b` when `a`'s duration is at least `b`'s. -/
def durGE (a b : String × ℚ) : Prop := b.2 ≤ a.2

instance : DecidableRel durGE := fun a b => inferInstanceAs (Decidable (b.2 ≤ a.2))

instance : IsTotal (String × ℚ) durGE := ⟨fun a b => le_total b.2 a.2⟩

instance : IsTrans (String × ℚ) durGE := ⟨fun _ _ _ h1 h2 => le_trans h2 h1⟩

/-- `results.sort(key=lambda x: x[1], reverse=True)` (source line 103):
Python's sort is stable and `reverse=True` keeps the original order of equal
keys, so the result is the unique duration-descending stable rearrangement;
insertion sort with `durGE` computes exactly that (sortedness and stability
are proved below). -/
def sortDesc (rs : List (String × ℚ)) : List (String × ℚ) := rs.insertionSort durGE

/-- `total = sum(t for _, t in results)` (source line 104). -/
def total (rs : List (String × ℚ)) : ℚ := (rs.map Prod.snd).sum

/-- `pct = (duration / total) * 100 if total > 0 else 0` (source line 107). -/
def pct (d t : ℚ) : ℚ := if 0 < t then d / t * 100 else 0

/-- The percentages of every measurement in a results list. -/
def pcts (rs : List (String × ℚ)) : List ℚ := rs.map (fun x => pct x.2 (total rs))

/-- `bar = "█" * int(pct / 2)` (source line 108), as a glyph count. -/
def barLen (p : ℚ) : ℕ := (p / 2).floor.toNat

/-- The summary section (source lines 98-113), applied to the sorted list. -/
def summaryOut (sorted : List (String × ℚ)) : List Line :=
  let t := total sorted
  [Line.blank, Line.banner, Line.summaryTitle, Line.banner]
    ++ sorted.map (fun x => Line.summaryRow x.1 x.2 (pct x.2 t) (barLen (pct x.2 t)))
    ++ [Line.sep, Line.totalRow t, Line.banner]

/-- Python's substring test `frag in name`, on the underlying character
lists. -/
def containsFrag (name frag : String) : Bool := decide (frag.data <:+: name.data)

/-- Explanatory sentence for geopandas (source line 127). -/
def geoAdvisory : String := "GeoPandas loads GDAL/GEOS - unavoidable overhead"

/-- Explanatory sentence for leafmap (source line 129). -/
def leafAdvisory : String := "leafmap loads many geospatial dependencies"

/-- Explanatory sentence for rasterio (source line 131). -/
def rasterAdvisory : String := "Rasterio loads GDAL bindings"

/-- The `if "geopandas" in name / elif "leafmap" in name / elif "rasterio" in
name` chain (source lines 126-131), consulted only under the threshold
check. -/
def advisoryFor (name : String) : Option String :=
  if containsFrag name ("geopandas") then some geoAdvisory
  else if containsFrag name ("leafmap") then some leafAdvisory
  else if containsFrag name ("rasterio") then some rasterAdvisory
  else none

/-- The unconditional tips block (source lines 133-139); tip 3 spans two
physical source lines and is one tip. -/
def tipsOut : List Line :=
  [Line.tipsTitle,
   Line.tip ("1. Run imports once at the start of your session"),
   Line.tip ("2. Use `%load_ext autoreload` to avoid re-importing"),
   Line.tip ("3. Consider `import leafmap` (folium backend) if you do not need MapLibre GL features"),
   Line.tip ("4. Pre-warm your kernel before presentations")]

/-- `slowest = results[0] if results else None` (source line 120), on the
already-sorted list. -/
def slowest (rs : List (String × ℚ)) : Option (String × ℚ) := rs.head?

/-- The recommendations section (source lines 115-139), applied to the sorted
list: warning and advisory only when the slowest duration exceeds 2 seconds,
tips always. -/
def recommendOut (sorted : List (String × ℚ)) : List Line :=
  [Line.blank, Line.recTitle, Line.sep]
    ++ (match slowest sorted with
        | none => []
        | some x =>
            if 2 < x.2 then
              Line.warning x.1 x.2 :: ((advisoryFor x.1).map Line.advisory).toList
            else [])
    ++ [Line.blank] ++ tipsOut

/-- The whole of `profile_detailed`: header, the seven probes, then (unless an
uncaught exception escaped) the in-place sort, the summary and the
recommendations. -/
def profile_detailed (env : String → ProbeOutcome) : RunState :=
  let st := runSteps env probes
  if st.crashed then st
  else
    let sorted := sortDesc st.results
    ⟨sorted, st.out ++ summaryOut sorted ++ recommendOut sorted, false⟩

/-- Maximum duration in a results list (0 for the empty list, which the claims
never rely on). -/
def durMax : List (String × ℚ) → ℚ
  | [] => 0
  | [x] => x.2
  | x :: y :: t => max x.2 (durMax (y :: t))

/-- Is this line a failed-probe report (`not installed` or `error: ...`)? -/
def isFailLine : Line → Bool
  | Line.probeNotInstalled _ => true
  | Line.probeError _ _ => true
  | _ => false

/-- Number of failed-probe report lines in an output stream. -/
def failCount (out : List Line) : ℕ := out.countP isFailLine

/-- Is this line emitted by the probe phase (as opposed to the header)? -/
def isProbeLine : Line → Bool
  | Line.probeOk _ _ => true
  | Line.probeNotInstalled _ => true
  | Line.probeError _ _ => true
  | _ => false

/-- A probe outcome that the probe's guard absorbs without an exception
escaping: a successful load, or an `ImportError` at a guarded probe. -/
def probeSafe (env : String → ProbeOutcome) (p : Probe) : Bool :=
  match env p.module, p.guard with
  | ProbeOutcome.ok _, _ => true
  | ProbeOutcome.importError _, Guard.unguarded => false
  | ProbeOutcome.importError _, Guard.optional => true
  | ProbeOutcome.importError _, Guard.required => true
  | ProbeOutcome.otherError, _ => false

/-! ### Basic lemmas about the probe phase -/

theorem step_of_crashed (env : String → ProbeOutcome) (st : RunState) (p : Probe)
    (h : st.crashed = true) : step env st p = st := by
  simp [step, h]

theorem foldl_of_crashed (env : String → ProbeOutcome) :
    ∀ (ps : List Probe) (st : RunState), st.crashed = true → ps.foldl (step env) st = st
  | [], _, _ => rfl
  | p :: ps, st, h => by
      rw [List.foldl_cons, step_of_crashed env st p h, foldl_of_crashed env ps st h]

theorem crashed_false_of_foldl (env : String → ProbeOutcome) (ps : List Probe)
    (st : RunState) (h : (ps.foldl (step env) st).crashed = false) : st.crashed = false := by
  cases hcr : st.crashed
  · rfl
  · rw [foldl_of_crashed env ps st hcr] at h
    rw [hcr] at h
    exact absurd h (by decide)

theorem step_out_mono (env : String → ProbeOutcome) (st : RunState) (p : Probe) :
    ∃ new, (step env st p).out = st.out ++ new ∧ ∀ l ∈ new, isProbeLine l = true := by
  cases hc : st.crashed with
  | true => exact ⟨[], by simp [step, hc], by simp⟩
  | false =>
    cases henv : env p.module with
    | ok d =>
        exact ⟨[Line.probeOk p.label d], by simp [step, hc, henv], by simp [isProbeLine]⟩
    | importError msg =>
      cases hg : p.guard with
      | unguarded => exact ⟨[], by simp [step, hc, henv, hg], by simp⟩
      | optional =>
          exact ⟨[Line.probeNotInstalled p.label], by simp [step, hc, henv, hg],
            by simp [isProbeLine]⟩
      | required =>
          exact ⟨[Line.probeError p.label msg], by simp [step, hc, henv, hg],
            by simp [isProbeLine]⟩
    | otherError => exact ⟨[], by simp [step, hc, henv], by simp⟩

theorem foldl_out_mono (env : String → ProbeOutcome) (ps : List Probe) :
    ∀ st : RunState,
      ∃ new, (ps.foldl (step env) st).out = st.out ++ new ∧
        ∀ l ∈ new, isProbeLine l = true := by
  induction ps with
  | nil => intro st; exact ⟨[], by simp, by simp⟩
  | cons p ps ih =>
    intro st
    obtain ⟨n1, h1, hp1⟩ := step_out_mono env st p
    obtain ⟨n2, h2, hp2⟩ := ih (step env st p)
    refine ⟨n1 ++ n2, ?_, ?_⟩
    · rw [List.foldl_cons, h2, h1, List.append_assoc]
    · intro l hl
      rcases List.mem_append.mp hl with h | h
      exacts [hp1 l h, hp2 l h]

/-! ### Sorting: permutation, sortedness, stability, idempotence -/

theorem sortDesc_perm (rs : List (String × ℚ)) : List.Perm (sortDesc rs) rs :=
  List.perm_insertionSort durGE rs

theorem sortDesc_sorted (rs : List (String × ℚ)) : (sortDesc rs).Pairwise durGE :=
  List.sorted_insertionSort durGE rs

theorem sortDesc_idem (rs : List (String × ℚ)) : sortDesc (sortDesc rs) = sortDesc rs :=
  List.Sorted.insertionSort_eq (List.sorted_insertionSort durGE rs)

theorem filter_orderedInsert (d : ℚ) (x : String × ℚ) :
    ∀ m : List (String × ℚ),
      (m.orderedInsert durGE x).filter (fun y => y.2 == d)
        = (x :: m).filter (fun y => y.2 == d)
  | [] => rfl
  | b :: m => by
      by_cases hr : durGE x b
      · rw [List.orderedInsert_of_le durGE m hr]
      · have hstep : (b :: m).orderedInsert durGE x = b :: m.orderedInsert durGE x := by
          simp [List.orderedInsert, hr]
        have hlt : x.2 < b.2 := lt_of_not_le hr
        rw [hstep]
        by_cases hx : x.2 = d
        · have hb : b.2 ≠ d := by
            intro hbd
            rw [hx] at hlt
            rw [hbd] at hlt
            exact lt_irrefl d hlt
          simp [List.filter_cons, hx, hb, filter_orderedInsert d x m]
        · simp [List.filter_cons, hx, filter_orderedInsert d x m]

theorem sortDesc_filter (rs : List (String × ℚ)) (d : ℚ) :
    (sortDesc rs).filter (fun y => y.2 == d) = rs.filter (fun y => y.2 == d) := by
  induction rs with
  | nil => rfl
  | cons a t ih =>
    have hdef : sortDesc (a :: t) = (sortDesc t).orderedInsert durGE a := rfl
    rw [hdef, filter_orderedInsert d a (sortDesc t)]
    by_cases h : a.2 = d
    · simp [List.filter_cons, h, ih]
    · simp [List.filter_cons, h, ih]

/-! ### The maximum duration -/

theorem le_durMax {x : String × ℚ} :
    ∀ {rs : List (String × ℚ)}, x ∈ rs → x.2 ≤ durMax rs
  | [], h => absurd h (List.not_mem_nil x)
  | [a], h => by
      have hxa : x = a := List.mem_singleton.mp h
      rw [hxa]
      simp [durMax]
  | a :: b :: t, h => by
      rcases List.mem_cons.mp h with rfl | h'
      · simp [durMax]
      · calc x.2 ≤ durMax (b :: t) := le_durMax h'
          _ ≤ max a.2 (durMax (b :: t)) := le_max_right _ _
          _ = durMax (a :: b :: t) := by simp [durMax]

theorem durMax_le {b : ℚ} :
    ∀ {rs : List (String × ℚ)}, rs ≠ [] → (∀ x ∈ rs, x.2 ≤ b) → durMax rs ≤ b
  | [], h, _ => absurd rfl h
  | [a], _, hall => by simpa [durMax] using hall a (List.mem_singleton_self a)
  | a :: c :: t, _, hall => by
      have h1 : a.2 ≤ b := hall a (List.mem_cons_self a (c :: t))
      have h2 : durMax (c :: t) ≤ b :=
        durMax_le (by simp) (fun x hx => hall x (List.mem_cons_of_mem a hx))
      have hdef : durMax (a :: c :: t) = max a.2 (durMax (c :: t)) := by simp [durMax]
      rw [hdef]
      exact max_le h1 h2

theorem sortDesc_head (rs : List (String × ℚ)) (h : rs ≠ []) :
    ∃ x, (sortDesc rs).head? = some x ∧ x.2 = durMax rs ∧ x ∈ rs
      ∧ (rs.filter (fun y => y.2 == durMax rs)).head? = some x := by
  cases hsort : sortDesc rs with
  | nil =>
    exfalso
    apply h
    have hlen := (sortDesc_perm rs).length_eq
    rw [hsort] at hlen
    exact List.length_eq_zero.mp hlen.symm
  | cons x t =>
    have hx_mem : x ∈ rs :=
      (sortDesc_perm rs).mem_iff.mp (by rw [hsort]; exact List.mem_cons_self x t)
    have hsorted := sortDesc_sorted rs
    rw [hsort] at hsorted
    have hall : ∀ y ∈ rs, y.2 ≤ x.2 := by
      intro y hy
      have hy' : y ∈ x :: t := by
        rw [← hsort]
        exact (sortDesc_perm rs).mem_iff.mpr hy
      rcases List.mem_cons.mp hy' with rfl | hmem
      · exact le_refl _
      · exact (List.pairwise_cons.mp hsorted).1 y hmem
    have hxmax : x.2 = durMax rs := le_antisymm (le_durMax hx_mem) (durMax_le h hall)
    refine ⟨x, rfl, hxmax, hx_mem, ?_⟩
    rw [← sortDesc_filter rs (durMax rs), hsort]
    simp [List.filter_cons, hxmax]

theorem crashed_false_of_step (env : String → ProbeOutcome) (st : RunState) (p : Probe)
    (h : (step env st p).crashed = false) : st.crashed = false := by
  cases hcr : st.crashed
  · rfl
  · rw [step_of_crashed env st p hcr] at h
    rw [hcr] at h
    exact absurd h (by decide)

theorem step_results (env : String → ProbeOutcome) (st : RunState) (p : Probe) :
    (step env st p).results = st.results
    ∨ ∃ d, env p.module = ProbeOutcome.ok d ∧ st.crashed = false
        ∧ (step env st p).results = st.results ++ [(p.label, d)] := by
  cases hc : st.crashed
  · cases henv : env p.module with
    | ok d => exact Or.inr ⟨d, rfl, rfl, by simp [step, hc, henv]⟩
    | importError msg =>
        refine Or.inl ?_
        cases hg : p.guard <;> simp [step, hc, henv, hg]
    | otherError => exact Or.inl (by simp [step, hc, henv])
  · exact Or.inl (by rw [step_of_crashed env st p hc])

theorem step_accounting (env : String → ProbeOutcome) (st : RunState) (p : Probe)
    (hc : st.crashed = false) (hc' : (step env st p).crashed = false) :
    failCount (step env st p).out + (step env st p).results.length
      = failCount st.out + st.results.length + 1 := by
  cases henv : env p.module with
  | ok d =>
      simp [step, hc, henv, failCount, List.countP_append, List.countP_cons, isFailLine]
      omega
  | importError msg =>
    cases hg : p.guard with
    | unguarded => exfalso; simp [step, hc, henv, hg] at hc'
    | optional =>
        simp [step, hc, henv, hg, failCount, List.countP_append, List.countP_cons, isFailLine]
        omega
    | required =>
        simp [step, hc, henv, hg, failCount, List.countP_append, List.countP_cons, isFailLine]
        omega
  | otherError => exfalso; simp [step, hc, henv] at hc'

theorem foldl_accounting (env : String → ProbeOutcome) (ps : List Probe) :
    ∀ st : RunState, (ps.foldl (step env) st).crashed = false →
      failCount (ps.foldl (step env) st).out + (ps.foldl (step env) st).results.length
        = failCount st.out + st.results.length + ps.length := by
  induction ps with
  | nil => intro st _; simp
  | cons p ps ih =>
    intro st hfin
    rw [List.foldl_cons] at hfin ⊢
    have hstep : (step env st p).crashed = false := crashed_false_of_foldl env ps _ hfin
    have hst : st.crashed = false := crashed_false_of_step env st p hstep
    have h1 := ih (step env st p) hfin
    have h2 := step_accounting env st p hst hstep
    rw [h1, h2]
    simp [List.length_cons]
    omega

theorem foldl_safe_no_crash (env : String → ProbeOutcome) (ps : List Probe) :
    ∀ st : RunState, st.crashed = false → (∀ p ∈ ps, probeSafe env p = true) →
      (ps.foldl (step env) st).crashed = false := by
  induction ps with
  | nil => intro st h _; simpa using h
  | cons q ps ih =>
    intro st hst hsafe
    rw [List.foldl_cons]
    refine ih (step env st q) ?_ (fun p hp => hsafe p (List.mem_cons_of_mem q hp))
    have hq := hsafe q (List.mem_cons_self q ps)
    cases henv : env q.module with
    | ok d => simp [step, hst, henv]
    | importError msg =>
      cases hg : q.guard with
      | unguarded => exfalso; simp [probeSafe, henv, hg] at hq
      | optional => simp [step, hst, henv, hg]
      | required => simp [step, hst, henv, hg]
    | otherError => exfalso; simp [probeSafe, henv] at hq

theorem foldl_probe_lines (env : String → ProbeOutcome) (ps : List Probe) :
    ∀ st : RunState, (ps.foldl (step env) st).crashed = false →
      ∀ p ∈ ps,
        (∃ d, Line.probeOk p.label d ∈ (ps.foldl (step env) st).out)
        ∨ Line.probeNotInstalled p.label ∈ (ps.foldl (step env) st).out
        ∨ ∃ msg, Line.probeError p.label msg ∈ (ps.foldl (step env) st).out := by
  induction ps with
  | nil => intro st _ p hp; cases hp
  | cons q ps ih =>
    intro st hfin p hp
    rw [List.foldl_cons] at hfin ⊢
    have hstep : (step env st q).crashed = false := crashed_false_of_foldl env ps _ hfin
    have hst : st.crashed = false := crashed_false_of_step env st q hstep
    rcases List.mem_cons.mp hp with rfl | hmem
    · obtain ⟨new2, hout2, _⟩ := foldl_out_mono env ps (step env st p)
      cases henv : env p.module with
      | ok d =>
          refine Or.inl ⟨d, ?_⟩
          rw [hout2]
          exact List.mem_append_left _ (by simp [step, hst, henv])
      | importError msg =>
        cases hg : p.guard with
        | unguarded => exfalso; simp [step, hst, henv, hg] at hstep
        | optional =>
            refine Or.inr (Or.inl ?_)
            rw [hout2]
            exact List.mem_append_left _ (by simp [step, hst, henv, hg])
        | required =>
            refine Or.inr (Or.inr ⟨msg, ?_⟩)
            rw [hout2]
            exact List.mem_append_left _ (by simp [step, hst, henv, hg])
      | otherError => exfalso; simp [step, hst, henv] at hstep
    · exact ih (step env st q) hfin p hmem

theorem foldl_results (env : String → ProbeOutcome) (ps : List Probe) :
    ∀ st : RunState,
      ∃ new : List (String × ℚ),
        (ps.foldl (step env) st).results = st.results ++ new
        ∧ (new.map Prod.fst).Sublist (ps.map Probe.label)
        ∧ ∀ x ∈ new, ∃ p ∈ ps, p.label = x.1 ∧ env p.module = ProbeOutcome.ok x.2 := by
  induction ps with
  | nil => intro st; exact ⟨[], by simp, by simp, by simp⟩
  | cons q ps ih =>
    intro st
    obtain ⟨n2, h2, hsub2, hx2⟩ := ih (step env st q)
    rcases step_results env st q with hstep | ⟨d, henv, _, hstep⟩
    · refine ⟨n2, ?_, ?_, ?_⟩
      · rw [List.foldl_cons, h2, hstep]
      · simpa using List.Sublist.cons q.label hsub2
      · intro x hx
        obtain ⟨p, hp, hh⟩ := hx2 x hx
        exact ⟨p, List.mem_cons_of_mem q hp, hh⟩
    · refine ⟨(q.label, d) :: n2, ?_, ?_, ?_⟩
      · rw [List.foldl_cons, h2, hstep]
        simp
      · simpa using List.Sublist.cons₂ q.label hsub2
      · intro x hx
        rcases List.mem_cons.mp hx with rfl | hx'
        · exact ⟨q, List.mem_cons_self q ps, rfl, henv⟩
        · obtain ⟨p, hp, hh⟩ := hx2 x hx'
          exact ⟨p, List.mem_cons_of_mem q hp, hh⟩

theorem failCount_headerOut : failCount headerOut = 0 := by
  simp [failCount, headerOut, List.countP_cons, isFailLine]

theorem failCount_summaryOut (s : List (String × ℚ)) : failCount (summaryOut s) = 0 := by
  simp [failCount, summaryOut, List.countP_append, List.countP_cons, List.countP_map,
    isFailLine, Function.comp]

theorem failCount_tipsOut : failCount tipsOut = 0 := by
  simp [failCount, tipsOut, List.countP_cons, isFailLine]

theorem failCount_recommendOut (s : List (String × ℚ)) : failCount (recommendOut s) = 0 := by
  rcases hs : slowest s with _ | x
  · simp [failCount, recommendOut, hs, tipsOut, List.countP_append, List.countP_cons, isFailLine]
  · by_cases h2 : (2:ℚ) < x.2
    · rcases hadv : advisoryFor x.1 with _ | t <;>
        simp [failCount, recommendOut, hs, h2, hadv, tipsOut, List.countP_append,
          List.countP_cons, isFailLine]
    · simp [failCount, recommendOut, hs, h2, tipsOut, List.countP_append,
        List.countP_cons, isFailLine]

/-! ### Percentages -/

theorem sum_div_mul (t : ℚ) :
    ∀ rs : List (String × ℚ), (rs.map (fun x => x.2 / t * 100)).sum = total rs / t * 100
  | [] => by simp [total]
  | x :: rs => by
      have ih := sum_div_mul t rs
      simp only [List.map_cons, List.sum_cons, ih, total, List.map_cons, List.sum_cons]
      rw [add_div, add_mul]

/-! ### Claim theorems -/

/-- C2: `summarize` sorts the measurement sequence by duration descending with
a stable tie-break: in `sortDesc rs` every earlier element has duration at
least that of every later one, and for each duration value the elements
carrying it appear in exactly their original probe order. -/
theorem summary_sorted_desc_stable (rs : List (String × ℚ)) :
    ((sortDesc rs).Pairwise (fun a b => b.2 ≤ a.2))
    ∧ ∀ d : ℚ, (sortDesc rs).filter (fun y => y.2 == d) = rs.filter (fun y => y.2 == d) :=
  ⟨sortDesc_sorted rs, fun d => sortDesc_filter rs d⟩

/-- C3: with `total` the sum of all durations, if `total > 0` every percentage
equals `duration / total * 100` and the percentages sum to exactly 100 (so
certainly within the ±0.5 tolerance); if `total = 0` (in particular for the
empty sequence) every percentage is 0 and no division is performed. -/
theorem percentage_sum_property (rs : List (String × ℚ)) :
    (0 < total rs →
      (pcts rs).sum = 100 ∧ ∀ x ∈ rs, pct x.2 (total rs) = x.2 / total rs * 100)
    ∧ (total rs = 0 → ∀ x ∈ rs, pct x.2 (total rs) = 0) := by
  constructor
  · intro ht
    constructor
    · have h := sum_div_mul (total rs) rs
      have hp : pcts rs = rs.map (fun x => x.2 / total rs * 100) := by
        simp [pcts, pct, ht]
      rw [hp, h, div_self (ne_of_gt ht), one_mul]
    · intro x _
      simp [pct, ht]
  · intro ht x _
    simp [pct, ht]

/-- Witness for C3: on the concrete list `[("a", 1), ("b", 3)]` the total is
positive and the percentages sum to 100. -/
theorem percentage_sum_property_witness :
    (pcts [(("a" : String), (1 : ℚ)), (("b" : String), (3 : ℚ))]).sum = 100 :=
  ((percentage_sum_property _).1 (by norm_num [total])).1

/-- C8: the recommendation selection is a pure function of the measurement
sequence: applying `summarize`'s sort any further number of times does not
change the selected entry, and the selected entry is the first element of the
original sequence attaining the maximum duration (ties broken by original
probe order). -/
theorem recommend_selection_stable (rs : List (String × ℚ)) (n : ℕ) :
    slowest (sortDesc^[n] (sortDesc rs)) = slowest (sortDesc rs)
    ∧ slowest (sortDesc rs) = (rs.filter (fun y => y.2 == durMax rs)).head? := by
  constructor
  · rw [Function.iterate_fixed (sortDesc_idem rs) n]
  · by_cases h : rs = []
    · subst h; rfl
    · obtain ⟨x, hx1, _, _, hx4⟩ := sortDesc_head rs h
      rw [slowest, hx1, hx4]

/-- C4: at a probe whose guard is the optional one, a load failure becomes a
`not installed` line and execution continues; at a probe whose guard is the
required one, a load failure becomes an `error: ...` line carrying the
underlying failure text and execution still continues; and among the probes
the required ones are exactly the base leafmap probe and its maplibregl
submodule probe. -/
theorem optional_and_required_probe_failure (env : String → ProbeOutcome) (st : RunState)
    (p : Probe) (msg : String) (hp : p ∈ probes) (hst : st.crashed = false)
    (hfail : env p.module = ProbeOutcome.importError msg) :
    (p.guard = Guard.optional →
      step env st p = ⟨st.results, st.out ++ [Line.probeNotInstalled p.label], false⟩)
    ∧ (p.guard = Guard.required →
      step env st p = ⟨st.results, st.out ++ [Line.probeError p.label msg], false⟩)
    ∧ (p.guard = Guard.required ↔
        (p.label = "leafmap (base)" ∨ p.label = "leafmap.maplibregl")) := by
  refine ⟨?_, ?_, ?_⟩
  · intro hg
    simp [step, hst, hfail, hg]
  · intro hg
    simp [step, hst, hfail, hg]
  · fin_cases hp <;> simp

/-- A fixed environment in which every module fails to load with an
`ImportError`. -/
def envFailAll : String → ProbeOutcome :=
  fun _ => ProbeOutcome.importError ("No module named it")

/-- Witness for C4: the ipywidgets probe, failing in `envFailAll`, appends
exactly a `not installed` line and does not crash. -/
theorem optional_and_required_probe_failure_witness :
    step envFailAll ⟨[], headerOut, false⟩ ⟨"ipywidgets", "ipywidgets", Guard.optional⟩
      = ⟨[], headerOut ++ [Line.probeNotInstalled ("ipywidgets")], false⟩ :=
  (optional_and_required_probe_failure envFailAll ⟨[], headerOut, false⟩
    ⟨"ipywidgets", "ipywidgets", Guard.optional⟩ ("No module named it")
    (by decide) rfl rfl).1 rfl

/-- C6: under the threshold condition the advisory sentence is chosen purely
by substring matching of the slowest name against the three fixed fragments
`geopandas`, `leafmap`, `rasterio` (consulted in that order), each mapped to
its fixed sentence, and a name containing none of the three yields no
advisory sentence at all. -/
theorem advisory_lookup_table (name : String) :
    (advisoryFor name = none ↔
      containsFrag name ("geopandas") = false ∧ containsFrag name ("leafmap") = false
        ∧ containsFrag name ("rasterio") = false)
    ∧ (containsFrag name ("geopandas") = true → advisoryFor name = some geoAdvisory)
    ∧ (containsFrag name ("geopandas") = false → containsFrag name ("leafmap") = true →
        advisoryFor name = some leafAdvisory)
    ∧ (containsFrag name ("geopandas") = false → containsFrag name ("leafmap") = false →
        containsFrag name ("rasterio") = true → advisoryFor name = some rasterAdvisory) := by
  cases hg : containsFrag name ("geopandas") <;>
    cases hl : containsFrag name ("leafmap") <;>
      cases hr : containsFrag name ("rasterio") <;>
        simp [advisoryFor, hg, hl, hr]

/-- Witness for C6: the name `geopandas` contains the fragment `geopandas`
and is mapped to the geopandas advisory sentence. -/
theorem advisory_lookup_table_witness :
    advisoryFor ("geopandas") = some geoAdvisory :=
  (advisory_lookup_table ("geopandas")).2.1 (by decide)

/-- C5: a warning line appears in the recommendations if and only if at least
one measurement exists and the maximum duration strictly exceeds 2 seconds;
any warning line carries the maximum duration and a measurement from the
original sequence; and the recommendations always end with the fixed tips
block, whatever the measurements were. -/
theorem warning_threshold_and_tips (rs : List (String × ℚ)) :
    ((∃ nm d, Line.warning nm d ∈ recommendOut (sortDesc rs)) ↔ (rs ≠ [] ∧ 2 < durMax rs))
    ∧ (∀ nm d, Line.warning nm d ∈ recommendOut (sortDesc rs) →
        d = durMax rs ∧ (nm, d) ∈ rs)
    ∧ ∃ pre, recommendOut (sortDesc rs) = pre ++ tipsOut := by
  by_cases hrs : rs = []
  · subst hrs
    refine ⟨?_, ?_, ?_⟩
    · simp [recommendOut, slowest, sortDesc, tipsOut]
    · intro nm d h
      exfalso
      simp [recommendOut, slowest, sortDesc, tipsOut] at h
    · exact ⟨[Line.blank, Line.recTitle, Line.sep, Line.blank],
        by simp [recommendOut, slowest, sortDesc]⟩
  · obtain ⟨x, hx1, hx2, hx3, _⟩ := sortDesc_head rs hrs
    have hslow : slowest (sortDesc rs) = some x := hx1
    by_cases h2 : (2:ℚ) < x.2
    · refine ⟨?_, ?_, ?_⟩
      · constructor
        · intro _
          exact ⟨hrs, hx2 ▸ h2⟩
        · intro _
          exact ⟨x.1, x.2, by simp [recommendOut, hslow, h2]⟩
      · intro nm d hmem
        rcases hadv : advisoryFor x.1 with _ | t <;>
          simp [recommendOut, hslow, h2, hadv, tipsOut] at hmem <;>
          obtain ⟨rfl, rfl⟩ := hmem <;>
          exact ⟨hx2, by rw [Prod.mk.eta]; exact hx3⟩
      · rcases hadv : advisoryFor x.1 with _ | t
        · exact ⟨[Line.blank, Line.recTitle, Line.sep, Line.warning x.1 x.2, Line.blank],
            by simp [recommendOut, hslow, h2, hadv]⟩
        · exact ⟨[Line.blank, Line.recTitle, Line.sep, Line.warning x.1 x.2,
            Line.advisory t, Line.blank], by simp [recommendOut, hslow, h2, hadv]⟩
    · refine ⟨?_, ?_, ⟨[Line.blank, Line.recTitle, Line.sep, Line.blank],
        by simp [recommendOut, hslow, h2]⟩⟩
      · constructor
        · rintro ⟨nm, d, hmem⟩
          exfalso
          simp [recommendOut, hslow, h2, tipsOut] at hmem
        · rintro ⟨_, hmax⟩
          exfalso
          rw [← hx2] at hmax
          exact h2 hmax
      · intro nm d hmem
        exfalso
        simp [recommendOut, hslow, h2, tipsOut] at hmem

/-- Witness for C5: with the single measurement `("slow", 3)` the warning for
it is present in the recommendations. -/
theorem warning_threshold_and_tips_witness :
    ∃ nm d, Line.warning nm d ∈ recommendOut (sortDesc [(("slow" : String), (3 : ℚ))]) :=
  (warning_threshold_and_tips _).1.mpr ⟨by decide, by norm_num [durMax]⟩

/-- An environment in which every module fails to load with an
`ImportError` — including numpy, whose probe has no guard. -/
def envNoModules : String → ProbeOutcome :=
  fun _ => ProbeOutcome.importError ("No module named x")

/-- C1 is refuted as stated: when every module fails to load, the very first
probe (numpy, whose import is not wrapped in any `try`) lets the
`ImportError` escape, the run terminates early, and neither the summary
section nor the tips block is ever printed. -/
theorem numpy_failure_aborts_run :
    (profile_detailed envNoModules).crashed = true
    ∧ Line.summaryTitle ∉ (profile_detailed envNoModules).out
    ∧ Line.tipsTitle ∉ (profile_detailed envNoModules).out := by decide

/-- C1 (amended): every *guarded* probe's load failure is recovered locally:
whenever the first (numpy) import succeeds and no probe raises a
non-`ImportError` exception, the run never terminates early — however many
guarded probes fail — every probe still reports an outcome line, the summary
stage is reached and the final tips block is printed. -/
theorem guarded_failures_recovered (env : String → ProbeOutcome)
    (hsafe : ∀ p ∈ probes, probeSafe env p = true) :
    (profile_detailed env).crashed = false
    ∧ Line.summaryTitle ∈ (profile_detailed env).out
    ∧ Line.tipsTitle ∈ (profile_detailed env).out
    ∧ ∀ p ∈ probes,
        (∃ d, Line.probeOk p.label d ∈ (profile_detailed env).out)
        ∨ Line.probeNotInstalled p.label ∈ (profile_detailed env).out
        ∨ ∃ msg, Line.probeError p.label msg ∈ (profile_detailed env).out := by
  have hnc : (runSteps env probes).crashed = false :=
    foldl_safe_no_crash env probes ⟨[], headerOut, false⟩ rfl hsafe
  have hout : (profile_detailed env).out
      = (runSteps env probes).out
        ++ summaryOut (sortDesc (runSteps env probes).results)
        ++ recommendOut (sortDesc (runSteps env probes).results) := by
    simp [profile_detailed, hnc]
  refine ⟨by simp [profile_detailed, hnc], ?_, ?_, ?_⟩
  · rw [hout]
    simp [summaryOut]
  · rw [hout]
    simp [recommendOut, tipsOut]
  · intro p hp
    rcases foldl_probe_lines env probes ⟨[], headerOut, false⟩ hnc p hp with
      ⟨d, hd⟩ | h | ⟨msg, hmsg⟩
    · exact Or.inl ⟨d, by
        rw [hout]
        exact List.mem_append_left _ (List.mem_append_left _ hd)⟩
    · exact Or.inr (Or.inl (by
        rw [hout]
        exact List.mem_append_left _ (List.mem_append_left _ h)))
    · exact Or.inr (Or.inr ⟨msg, by
        rw [hout]
        exact List.mem_append_left _ (List.mem_append_left _ hmsg)⟩)

/-- An environment in which numpy loads and every other module is missing. -/
def envOnlyNumpy : String → ProbeOutcome := fun m =>
  if m = "numpy" then ProbeOutcome.ok 1 else ProbeOutcome.importError ("missing")

/-- Witness for the amended C1: with numpy loading and every guarded probe
failing, the run completes and the tips block is printed. -/
theorem guarded_failures_recovered_witness :
    (profile_detailed envOnlyNumpy).crashed = false
    ∧ Line.tipsTitle ∈ (profile_detailed envOnlyNumpy).out :=
  ⟨(guarded_failures_recovered envOnlyNumpy (by decide)).1,
   (guarded_failures_recovered envOnlyNumpy (by decide)).2.2.1⟩

/-- C7: in every run that completes, the number of failure lines printed
(`not installed` plus `error: ...`) and the number of measurements in the
summary add up to the number of probes attempted. -/
theorem probe_accounting (env : String → ProbeOutcome)
    (h : (profile_detailed env).crashed = false) :
    failCount (profile_detailed env).out + (profile_detailed env).results.length
      = probes.length := by
  have hnc : (runSteps env probes).crashed = false := by
    cases hc : (runSteps env probes).crashed
    · rfl
    · exfalso
      rw [profile_detailed] at h
      rw [if_pos hc] at h
      rw [hc] at h
      exact absurd h (by decide)
  have hacc := foldl_accounting env probes ⟨[], headerOut, false⟩ hnc
  have hfold : List.foldl (step env) ⟨[], headerOut, false⟩ probes = runSteps env probes := rfl
  rw [hfold] at hacc
  have hout : (profile_detailed env).out
      = (runSteps env probes).out
        ++ summaryOut (sortDesc (runSteps env probes).results)
        ++ recommendOut (sortDesc (runSteps env probes).results) := by
    simp [profile_detailed, hnc]
  have hres : (profile_detailed env).results = sortDesc (runSteps env probes).results := by
    simp [profile_detailed, hnc]
  have hlen : (sortDesc (runSteps env probes).results).length
      = (runSteps env probes).results.length := by
    simp [sortDesc]
  have hsplit : failCount (profile_detailed env).out = failCount (runSteps env probes).out := by
    rw [hout]
    have h1 := failCount_summaryOut (sortDesc (runSteps env probes).results)
    have h2 := failCount_recommendOut (sortDesc (runSteps env probes).results)
    simp only [failCount, List.countP_append] at h1 h2 ⊢
    omega
  rw [hsplit, hres, hlen]
  have hhead : failCount headerOut = 0 := failCount_headerOut
  simp only [failCount, List.length_nil] at hacc hhead ⊢
  omega

/-- An environment in which every module loads in one second. -/
def envAllOk : String → ProbeOutcome := fun _ => ProbeOutcome.ok 1

/-- Witness for C7: in the all-successful run the failure lines and the
summary measurements account for all seven probes. -/
theorem probe_accounting_witness :
    failCount (profile_detailed envAllOk).out + (profile_detailed envAllOk).results.length
      = probes.length :=
  probe_accounting envAllOk (by decide)

/-- C9: after any number `k` of probes, the collected measurement sequence
lists at most one entry per module label, in probe order (its labels form a
sublist of the probe label list, with no duplicates), and every entry comes
from a probe up to that point whose load succeeded with exactly that
duration — failed loads never contribute an entry. -/
theorem results_sequence_invariant (env : String → ProbeOutcome) (k : ℕ) :
    (((runSteps env (probes.take k)).results.map Prod.fst).Sublist (probes.map Probe.label))
    ∧ ((runSteps env (probes.take k)).results.map Prod.fst).Nodup
    ∧ ∀ x ∈ (runSteps env (probes.take k)).results,
        ∃ p ∈ probes.take k, p.label = x.1 ∧ env p.module = ProbeOutcome.ok x.2 := by
  obtain ⟨new, h1, h2, h3⟩ := foldl_results env (probes.take k) ⟨[], headerOut, false⟩
  have hres : (runSteps env (probes.take k)).results = new := by simpa [runSteps] using h1
  have hsub2 : ((probes.take k).map Probe.label).Sublist (probes.map Probe.label) :=
    (List.take_sublist k probes).map Probe.label
  have hnodup : (probes.map Probe.label).Nodup := by decide
  refine ⟨?_, ?_, ?_⟩
  · rw [hres]
    exact h2.trans hsub2
  · rw [hres]
    exact ((h2.trans hsub2)).nodup hnodup
  · intro x hx
    exact h3 x (hres ▸ hx)

/-- C10: the guarded probes catch only `ImportError`: if some probe raises a
different exception (all earlier probe outcomes being absorbed normally), no
boundary catches it — the run crashes at that probe, the output stops at what
the earlier probes printed, no later probe executes, and neither the summary
nor the tips are reached. -/
theorem non_import_error_aborts (env : String → ProbeOutcome) (i : ℕ)
    (hi : i < probes.length)
    (hother : env (probes.get ⟨i, hi⟩).module = ProbeOutcome.otherError)
    (hbefore : ∀ p ∈ probes.take i, probeSafe env p = true) :
    (profile_detailed env).crashed = true
    ∧ (profile_detailed env).out = (runSteps env (probes.take i)).out
    ∧ (profile_detailed env).results = (runSteps env (probes.take i)).results
    ∧ Line.summaryTitle ∉ (profile_detailed env).out
    ∧ Line.tipsTitle ∉ (profile_detailed env).out := by
  have hnc : (runSteps env (probes.take i)).crashed = false :=
    foldl_safe_no_crash env (probes.take i) ⟨[], headerOut, false⟩ rfl hbefore
  have hdecomp : probes = probes.take i ++ probes[i] :: probes.drop (i + 1) := by
    conv_lhs => rw [← List.take_append_drop i probes]
    rw [List.drop_eq_getElem_cons hi]
  have hother2 : env (probes[i]).module = ProbeOutcome.otherError := by
    simpa using hother
  have hstepcrash : step env (runSteps env (probes.take i)) (probes[i])
      = ⟨(runSteps env (probes.take i)).results, (runSteps env (probes.take i)).out, true⟩ := by
    simp [step, hnc, hother2]
  have hwhole : runSteps env probes
      = ⟨(runSteps env (probes.take i)).results, (runSteps env (probes.take i)).out, true⟩ := by
    rw [runSteps]
    conv_lhs => rw [hdecomp]
    rw [List.foldl_append, List.foldl_cons]
    rw [show (probes.take i).foldl (step env) ⟨[], headerOut, false⟩
          = runSteps env (probes.take i) from rfl]
    rw [hstepcrash]
    exact foldl_of_crashed env _ _ rfl
  have hrun : profile_detailed env
      = ⟨(runSteps env (probes.take i)).results, (runSteps env (probes.take i)).out, true⟩ := by
    rw [profile_detailed, hwhole]
    rfl
  have hmem : ∀ l ∈ (runSteps env (probes.take i)).out,
      l ∈ headerOut ∨ isProbeLine l = true := by
    obtain ⟨new, hn, hp⟩ := foldl_out_mono env (probes.take i) ⟨[], headerOut, false⟩
    have hn' : (runSteps env (probes.take i)).out = headerOut ++ new := by
      simpa [runSteps] using hn
    intro l hl
    rw [hn'] at hl
    rcases List.mem_append.mp hl with h | h
    · exact Or.inl h
    · exact Or.inr (hp l h)
  refine ⟨by rw [hrun], by rw [hrun], by rw [hrun], ?_, ?_⟩
  · rw [hrun]
    intro hcontra
    rcases hmem _ hcontra with h | h
    · simp [headerOut] at h
    · simp [isProbeLine] at h
  · rw [hrun]
    intro hcontra
    rcases hmem _ hcontra with h | h
    · simp [headerOut] at h
    · simp [isProbeLine] at h

/-- An environment in which every import raises a non-`ImportError`
exception. -/
def envExplodes : String → ProbeOutcome := fun _ => ProbeOutcome.otherError

/-- Witness for C10: with the very first import raising a non-`ImportError`
exception, the run crashes and never prints the tips. -/
theorem non_import_error_aborts_witness :
    (profile_detailed envExplodes).crashed = true
    ∧ Line.tipsTitle ∉ (profile_detailed envExplodes).out :=
  ⟨(non_import_error_aborts envExplodes 0 (by decide) rfl (by decide)).1,
   (non_import_error_aborts envExplodes 0 (by decide) rfl (by decide)).2.2.2.2⟩
